import Mathlib

/-!
Shallow embedding of `src/services/KnowledgeBaseService.ts` (class
`KnowledgeBaseService`) and of the knowledge controller's `search` handler.

Modelling conventions:
- JavaScript `number` is modelled by `ℝ` (idealized: no NaN/Infinity/rounding;
  the TypeScript signatures declare `number[]` vectors).
- A possibly-non-array input (the `Array.isArray` guard in `cosineSimilarity`)
  is modelled by `Option (List ℝ)`: `none` is an absent / non-array value.
- External effects (the OpenAI embeddings endpoint, the Supabase reads) are
  passed in explicitly: a search call receives the value that
  `generateEmbedding(query)` produced, the rows the semantic pass reads, and
  the full-text-search rows (as a function of the requested limit).  Errors of
  those collaborators are `Except.error`.
- `tableName`, `company_id` filtering and row shapes are absorbed into the
  supplied row lists (the store applies them before the rows reach this code).
- Real-number comparisons make several definitions noncomputable; concrete
  evaluations in witnesses are done with `simp`/`norm_num`.
-/

namespace Vezlo

/-- Model of `a.reduce((sum, val, i) => sum + val * b[i], 0)` of
`cosineSimilarity`; the index access `b[i]` is total because the code has
already checked `a.length === b.length`, so the traversal is the zip fold. -/
def dotProduct (a b : List ℝ) : ℝ :=
  (List.zip a b).foldl (fun s p => s + p.1 * p.2) 0

/-- Model of `a.reduce((sum, val) => sum + val * val, 0)` — the squared magnitude. -/
def sumSq (a : List ℝ) : ℝ :=
  a.foldl (fun s v => s + v * v) 0

/-- Model of `Math.sqrt(a.reduce((sum, val) => sum + val * val, 0))`. -/
noncomputable def magnitude (a : List ℝ) : ℝ :=
  Real.sqrt (sumSq a)

/-- Embedding of `KnowledgeBaseService.cosineSimilarity` (lines 404-435), with the source's
guards in source order: non-array input → 0, differing lengths → 0, empty → 0,
zero magnitude → 0, otherwise dot product over the product of magnitudes.
The body of the source never throws, so its `try/catch` is dead and is not
modelled. -/
noncomputable def cosineSimilarity : Option (List ℝ) → Option (List ℝ) → ℝ
  | some a, some b =>
    if a.length ≠ b.length then 0
    else if a.length = 0 then 0
    else
      if magnitude a = 0 ∨ magnitude b = 0 then 0
      else dotProduct a b / (magnitude a * magnitude b)
  | _, _ => 0

/-- The spec's description of cosine similarity, written from the spec's words
(claim C6): `0` for absent/non-array inputs, for differing lengths, for empty
vectors and whenever either vector is the zero vector; otherwise the dot
product over the product of magnitudes. -/
noncomputable def cosineSimilaritySpec : Option (List ℝ) → Option (List ℝ) → ℝ
  | some a, some b =>
    if a.length ≠ b.length then 0
    else if a = [] ∨ b = [] then 0
    else if (∀ x ∈ a, x = 0) ∨ (∀ x ∈ b, x = 0) then 0
    else dotProduct a b / (magnitude a * magnitude b)
  | _, _ => 0

/-- How an item's `embedding` column arrives in the semantic pass (lines
359-371): `nullish` is a falsy value (skipped by `if (item.embedding)`),
`invalid` is a string that fails `JSON.parse` or a parsed non-array value
(skipped with an error log), `vec v` is an array value, possibly parsed
from its JSON string form. -/
inductive StoredEmbedding where
  | nullish
  | invalid
  | vec (v : List ℝ)

/-- A row as returned by the Supabase reads of `semanticSearch` /
`keywordSearch`.  `metadata` is an opaque payload.  The `company_id` filter
and the `textSearch` matching are applied by the store before rows reach the
service, so they are absorbed into the row list supplied to each pass. -/
structure DbRow where
  uuid : String
  title : String
  description : Option String
  content : Option String
  type : String
  metadata : String
  embedding : StoredEmbedding

/-- The `SearchResult` record of `KnowledgeBaseService`. -/
structure SearchResult where
  id : String
  title : String
  description : Option String
  content : Option String
  type : String
  score : ℝ
  metadata : String

/-- The `type` field of `SearchOptions`. -/
inductive SearchMode where
  | semantic
  | keyword
  | hybrid
deriving DecidableEq

/-- The `SearchOptions` record of `KnowledgeBaseService.search`.  Optional fields are
`Option`; a `some 0` limit/threshold is a present-but-falsy value, which the
source replaces with the default via `||`. -/
structure SearchOptions where
  limit : Option ℕ
  threshold : Option ℝ
  type : Option SearchMode
  company_id : Option ℕ

/-- The external collaborators one `search` call interacts with:
the value `generateEmbedding(query)` resolves to, the rows of the semantic
pass's read (all items with non-null embedding), and the rows the full-text
search returns for a requested limit.  `Except.error` is a failing store
call (the `if (error) throw` branches). -/
structure SearchEnv where
  queryEmbedding : Option (List ℝ)
  semanticRows : Except String (List DbRow)
  ftsRows : ℕ → Except String (List DbRow)

/-- Embedding of `KnowledgeBaseService.keywordSearch` (lines 437-476): map each row the
full-text search returned to a result with the fixed score 0.8; a store
error is caught and becomes the empty list. -/
noncomputable def keywordSearch (ftsRows : Except String (List DbRow)) : List SearchResult :=
  match ftsRows with
  | .error _ => []
  | .ok rows => rows.map (fun item =>
      { id := item.uuid, title := item.title, description := item.description,
        content := item.content, type := item.type, score := 0.8,
        metadata := item.metadata })

/-- The body of the `data.forEach` of `semanticSearch` (lines 359-390),
as the closure over the query embedding and the threshold: skip falsy /
invalid / empty embeddings, score the rest, push a result when the score is
at or above the threshold. -/
noncomputable def semScore (qe : List ℝ) (threshold : ℝ) (item : DbRow) :
    Option SearchResult :=
  match item.embedding with
  | .nullish => none
  | .invalid => none
  | .vec v =>
    if 0 < v.length then
      if threshold ≤ cosineSimilarity (some qe) (some v) then
        some { id := item.uuid, title := item.title,
               description := item.description, content := item.content,
               type := item.type, score := cosineSimilarity (some qe) (some v),
               metadata := item.metadata }
      else none
    else none

/-- Embedding of `KnowledgeBaseService.semanticSearch` (lines 337-401): bail out with `[]`
when the query embedding is missing or the store read failed; otherwise score
every row whose embedding survives the array checks, keep scores at or above
the threshold, sort by descending score (stable, like the modern JS
`Array.prototype.sort`), and take the first `limit`. -/
noncomputable def semanticSearch (queryEmbedding : Option (List ℝ))
    (dbRead : Except String (List DbRow)) (limit : ℕ) (threshold : ℝ) :
    List SearchResult :=
  match queryEmbedding with
  | none => []
  | some qe =>
    match dbRead with
    | .error _ => []
    | .ok data =>
      let results := data.filterMap (semScore qe threshold)
      (results.mergeSort (fun a b => decide (b.score ≤ a.score))).take limit

/-- The hybrid merge of `search` (lines 324-327), transliterated:
`combined.filter((item, index, self) => index === self.findIndex(t => t.id === item.id))`
— the element at position `index` survives iff the first position holding its
`id` is `index` itself. -/
def jsDedupe (l : List SearchResult) : List SearchResult :=
  (l.enum.filter (fun p => l.findIdx (fun t => t.id == p.2.id) == p.1)).map Prod.snd

/-- The spec's wording of the hybrid merge (claim C1): remove duplicate ids,
keeping the first occurrence of each id. -/
def dedupeKeepFirst : List SearchResult → List SearchResult
  | [] => []
  | x :: xs => x :: dedupeKeepFirst (xs.filter (fun y => !(y.id == x.id)))
termination_by l => l.length
decreasing_by
  simp only [List.length_cons]
  exact Nat.lt_succ_of_le (List.length_filter_le _ xs)

/-- Model of `options.limit || 5`. -/
def effLimit (opts : SearchOptions) : ℕ :=
  match opts.limit with
  | none => 5
  | some n => if n = 0 then 5 else n

/-- Model of `options.threshold || 0.7`. -/
noncomputable def effThreshold (opts : SearchOptions) : ℝ :=
  match opts.threshold with
  | none => 0.7
  | some t => if t = 0 then 0.7 else t

/-- Model of `options.type || 'hybrid'` (every mode string is truthy). -/
def effMode (opts : SearchOptions) : SearchMode :=
  match opts.type with
  | none => .hybrid
  | some m => m

/-- Embedding of `KnowledgeBaseService.search` (lines 308-335).  The semantic and keyword
passes never throw, so the outer `try/catch` is dead and the result is a
plain list.  For `hybrid`, each pass is asked for `Math.ceil(limit / 2)`
(= `(limit + 1) / 2` on ℕ) results, the two lists are concatenated
(semantic first), deduplicated by `id`, and truncated to `limit`. -/
noncomputable def search (query : String) (opts : SearchOptions)
    (env : SearchEnv) : List SearchResult :=
  let limit := effLimit opts
  let threshold := effThreshold opts
  match effMode opts with
  | .semantic => semanticSearch env.queryEmbedding env.semanticRows limit threshold
  | .keyword => keywordSearch (env.ftsRows limit)
  | .hybrid =>
    let semanticResults :=
      semanticSearch env.queryEmbedding env.semanticRows ((limit + 1) / 2) threshold
    let keywordResults := keywordSearch (env.ftsRows ((limit + 1) / 2))
    (jsDedupe (semanticResults ++ keywordResults)).take limit

/-- Reply of the knowledge controller's `search` handler. -/
inductive ControllerReply where
  | badRequest (msg : String)
  | okResults (results : List SearchResult)

/-- The controller's `search` handler (`src/unnamed/part_010`, lines
224-238): `if (!query) { res.status(400).json({ error: 'query is required' }) }`
before the service is invoked; the only falsy string is `""`.  The reply for
a falsy query is produced without touching `env`, i.e. before any network or
storage call. -/
noncomputable def searchController (query : String) (opts : SearchOptions)
    (env : SearchEnv) : ControllerReply :=
  if query = "" then .badRequest "query is required"
  else .okResults (search query opts env)

/-- One attempt of the OpenAI embeddings call inside
`KnowledgeBaseService.generateEmbedding`: a 2xx response carrying the vector,
a non-2xx response (status and body text), or a rejection of `fetch` itself
(DNS failure, connection failure, abort, ...) with its message. -/
inductive AttemptOutcome where
  | ok (embedding : List ℝ)
  | httpError (status : ℕ) (body : String)
  | netError (msg : String)

/-- The message of the `Error` the attempt throws (line 513 builds the
message for a non-2xx response; a `fetch` rejection keeps its own message).
Unused for a successful attempt. -/
def errMessage : AttemptOutcome → String
  | .ok _ => ""
  | .httpError status body => "OpenAI API error: " ++ toString status ++ " - " ++ body
  | .netError msg => msg

/-- Whether the attempt threw. -/
def isFailure : AttemptOutcome → Bool
  | .ok _ => false
  | .httpError _ _ => true
  | .netError _ => true

/-- The retry test of lines 524-530: the caught error's message contains
`'EAI_AGAIN'`, `'fetch failed'` or `'getaddrinfo'`. -/
def isTransientMsg (m : String) : Bool :=
  decide ("EAI_AGAIN".toList <:+: m.toList) ||
    (decide ("fetch failed".toList <:+: m.toList) ||
      decide ("getaddrinfo".toList <:+: m.toList))

/-- Model of `const maxRetries = 3`. -/
def maxRetries : ℕ := 3

/-- Model of `const retryDelay = 1000`. -/
def retryDelayMs : ℕ := 1000

/-- What one `generateEmbedding` call produced: the resolved value (`none`
is the null of the failure paths), the number of provider attempts actually
made, and the backoff waits performed between attempts. -/
structure GenOutcome where
  value : Option (List ℝ)
  calls : ℕ
  delays : List ℕ

/-- The `for (let attempt = 1; attempt <= maxRetries; attempt++)` loop of
`generateEmbedding` (lines 482-539).  `fuel` counts the iterations the loop
has left (`maxRetries - attempt + 1` at entry); the fuel-0 case is the
`return null` after the loop (line 541), which the loop itself never
reaches.  A failed attempt retries iff `attempt < maxRetries` and the error
message passes the transient test; otherwise the call resolves to `null`. -/
def genLoop (provider : ℕ → AttemptOutcome) : ℕ → ℕ → GenOutcome
  | _, 0 => ⟨none, 0, []⟩
  | attempt, fuel + 1 =>
    match provider attempt with
    | .ok v => ⟨some v, 1, []⟩
    | outcome =>
      if attempt < maxRetries ∧ isTransientMsg (errMessage outcome) then
        let r := genLoop provider (attempt + 1) fuel
        ⟨r.value, r.calls + 1, retryDelayMs :: r.delays⟩
      else ⟨none, 1, []⟩

/-- Embedding of `KnowledgeBaseService.generateEmbedding` (lines 478-542).  A missing
`OPENAI_API_KEY` resolves to `null` inside the first iteration, before any
provider call. -/
def generateEmbedding (hasApiKey : Bool) (provider : ℕ → AttemptOutcome) :
    GenOutcome :=
  if hasApiKey then genLoop provider 1 maxRetries else ⟨none, 0, []⟩

/-- The argument record of `createItem` (fields not involved in the claims —
parent resolution, file data, metadata, timestamps — elided). -/
structure NewItemInput where
  title : String
  description : Option String
  type : String
  content : Option String
  created_by : ℕ

/-- The record `createItem` hands to the insert, restricted to the modelled
fields; `processedAtSet` is whether `processed_at` was stamped. -/
structure InsertData where
  title : String
  description : Option String
  type : String
  content : Option String
  created_by : ℕ
  embedding : Option (List ℝ)
  processedAtSet : Bool

/-- Embedding of `KnowledgeBaseService.createItem` (lines 77-104): the embedding is
computed, via `generateEmbedding(item.content)`, only when `content` is
truthy (non-empty) AND the type is `'document'` or `'file'`; when the
provider fails (`null`) the insert still proceeds, without an embedding.
`embedOf c` is the value `generateEmbedding(c)` resolves to. -/
def createItemInsertData (item : NewItemInput)
    (embedOf : String → Option (List ℝ)) : InsertData :=
  let base : InsertData :=
    { title := item.title, description := item.description, type := item.type,
      content := item.content, created_by := item.created_by,
      embedding := none, processedAtSet := false }
  match item.content with
  | none => base
  | some c =>
    if c ≠ "" ∧ (item.type = "document" ∨ item.type = "file") then
      match embedOf c with
      | some v => { base with embedding := some v, processedAtSet := true }
      | none => base
    else base

/-- The update payload of `updateItem` (modelled fields). -/
structure UpdateInput where
  title : Option String
  description : Option String
  content : Option String

/-- The record `updateItem` hands to the update. -/
structure UpdateData where
  title : Option String
  description : Option String
  content : Option String
  embedding : Option (List ℝ)
  processedAtSet : Bool

/-- Embedding of `KnowledgeBaseService.updateItem` (lines 257-291): the embedding is
regenerated whenever the `content` field is present in the update
(`updates.content !== undefined`, so even the empty string triggers it);
when the provider fails the update still proceeds, leaving the stored
embedding untouched. -/
def updateItemUpdateData (updates : UpdateInput)
    (embedOf : String → Option (List ℝ)) : UpdateData :=
  let base : UpdateData :=
    { title := updates.title, description := updates.description,
      content := updates.content, embedding := none, processedAtSet := false }
  match updates.content with
  | none => base
  | some c =>
    match embedOf c with
    | some v => { base with embedding := some v, processedAtSet := true }
    | none => base

/-- Concrete environment with no query embedding, an empty semantic read and
an empty full-text result, used by the closed instances below. -/
noncomputable def envEmpty : SearchEnv := ⟨none, Except.ok [], fun _ => Except.ok []⟩

/-- Concrete options: hybrid mode with limit 4. -/
def optsHybrid4 : SearchOptions := ⟨some 4, none, some SearchMode.hybrid, none⟩

/-- Concrete options: semantic mode, all defaults. -/
def optsSemDefault : SearchOptions := ⟨none, none, some SearchMode.semantic, none⟩

/-- Concrete options: explicitly falsy limit and threshold. -/
noncomputable def optsZeroes (mode : Option SearchMode) : SearchOptions :=
  ⟨some 0, some 0, mode, none⟩

/-- Concrete options: no limit and no threshold supplied. -/
def optsNones (mode : Option SearchMode) : SearchOptions :=
  ⟨none, none, mode, none⟩

/-- A stored row whose embedding has dimension 1. -/
noncomputable def rowA : DbRow :=
  ⟨"a", "A", none, none, "document", "", StoredEmbedding.vec [3]⟩

/-- A provider whose every attempt is a rate-limit rejection whose body text
happens to contain the string `fetch failed`. -/
def p429 : ℕ → AttemptOutcome := fun _ => AttemptOutcome.httpError 429 "fetch failed"

/-- A provider whose every attempt fails with a DNS resolution error. -/
def pDns : ℕ → AttemptOutcome :=
  fun _ => AttemptOutcome.netError "getaddrinfo ENOTFOUND api.openai.com"

/-- A create payload of type `url` that carries content. -/
def itemUrl : NewItemInput := ⟨"Doc", none, "url", some "hello", 1⟩

/-- A create payload of type `document` that carries content. -/
def itemDoc : NewItemInput := ⟨"Doc", none, "document", some "hello", 1⟩

/-- An update payload that rewrites `content`. -/
def updContent : UpdateInput := ⟨none, none, some "hi"⟩

/-- An embedding provider that always succeeds with the vector `[1]`. -/
noncomputable def embedOne : String → Option (List ℝ) := fun _ => some [1]

theorem foldl_sq_go (a : List ℝ) : ∀ s : ℝ,
    a.foldl (fun t v => t + v * v) s = s + a.foldl (fun t v => t + v * v) 0 := by
  induction a with
  | nil => intro s; simp
  | cons x xs ih =>
    intro s
    simp only [List.foldl_cons]
    rw [ih (s + x * x), ih (0 + x * x)]
    ring

theorem sumSq_cons (x : ℝ) (xs : List ℝ) :
    sumSq (x :: xs) = x * x + sumSq xs := by
  simp only [sumSq, List.foldl_cons]
  rw [foldl_sq_go]
  ring

theorem sumSq_nonneg (a : List ℝ) : 0 ≤ sumSq a := by
  induction a with
  | nil => simp [sumSq]
  | cons x xs ih =>
    rw [sumSq_cons]
    have : 0 ≤ x * x := mul_self_nonneg x
    linarith

theorem sumSq_eq_zero_iff (a : List ℝ) : sumSq a = 0 ↔ ∀ x ∈ a, x = 0 := by
  induction a with
  | nil => simp [sumSq]
  | cons x xs ih =>
    rw [sumSq_cons]
    constructor
    · intro h
      have hx : 0 ≤ x * x := mul_self_nonneg x
      have hxs : 0 ≤ sumSq xs := sumSq_nonneg xs
      have hx0 : x * x = 0 := by linarith
      have hxz : x = 0 := by
        exact mul_self_eq_zero.mp hx0
      intro y hy
      rcases List.mem_cons.mp hy with h1 | h2
      · exact h1 ▸ hxz
      · exact (ih.mp (by linarith)) y h2
    · intro h
      have hx : x = 0 := h x (List.mem_cons_self x xs)
      have hxs : sumSq xs = 0 := ih.mpr (fun y hy => h y (List.mem_cons_of_mem x hy))
      rw [hx, hxs]; ring

theorem magnitude_eq_zero_iff (a : List ℝ) :
    magnitude a = 0 ↔ ∀ x ∈ a, x = 0 := by
  rw [magnitude, Real.sqrt_eq_zero', ← sumSq_eq_zero_iff]
  have h := sumSq_nonneg a
  constructor
  · intro hle; linarith
  · intro he; linarith

theorem dotProduct_self (a : List ℝ) : dotProduct a a = sumSq a := by
  have : ∀ s : ℝ, (List.zip a a).foldl (fun s p => s + p.1 * p.2) s =
      a.foldl (fun s v => s + v * v) s := by
    induction a with
    | nil => intro s; simp
    | cons x xs ih => intro s; simp only [List.zip_cons_cons, List.foldl_cons]; exact ih _
  simpa [dotProduct, sumSq] using this 0

theorem cosineSimilarity_eq_spec (oa ob : Option (List ℝ)) :
    cosineSimilarity oa ob = cosineSimilaritySpec oa ob := by
  match oa, ob with
  | none, none => rfl
  | none, some b => rfl
  | some a, none => rfl
  | some a, some b =>
    by_cases hl : a.length ≠ b.length
    · simp only [cosineSimilarity, cosineSimilaritySpec]
      rw [if_pos hl, if_pos hl]
    · push_neg at hl
      by_cases he : a.length = 0
      · have ha : a = [] := List.length_eq_zero.mp he
        have hb : b = [] := List.length_eq_zero.mp (hl ▸ he)
        subst ha; subst hb
        rfl
      · have hane : a ≠ [] := fun h => he (h ▸ rfl)
        have hbne : b ≠ [] := by
          intro h
          subst h
          exact he (by simpa using hl)
        have hmag : (magnitude a = 0 ∨ magnitude b = 0) ↔
            ((∀ x ∈ a, x = 0) ∨ (∀ x ∈ b, x = 0)) :=
          or_congr (magnitude_eq_zero_iff a) (magnitude_eq_zero_iff b)
        simp only [cosineSimilarity, cosineSimilaritySpec]
        rw [if_neg (by omega : ¬a.length ≠ b.length), if_neg (by omega : ¬a.length ≠ b.length),
          if_neg he, if_neg (show ¬(a = [] ∨ b = []) by simp [hane, hbne]),
          if_congr hmag rfl rfl]

theorem cosineSimilarity_self (a : List ℝ) (h : ∃ x ∈ a, x ≠ 0) :
    cosineSimilarity (some a) (some a) = 1 := by
  obtain ⟨x, hxa, hx⟩ := h
  have hs0 : sumSq a ≠ 0 := fun hs => hx ((sumSq_eq_zero_iff a).mp hs x hxa)
  have hmag : magnitude a ≠ 0 := by
    rw [Ne, magnitude_eq_zero_iff]
    intro hall; exact hx (hall x hxa)
  have hlen : a.length ≠ 0 := by
    intro h0
    rw [List.length_eq_zero.mp h0] at hxa
    exact absurd hxa (List.not_mem_nil x)
  simp only [cosineSimilarity]
  rw [if_neg (by omega : ¬a.length ≠ a.length), if_neg hlen,
    if_neg (by simp [hmag]), dotProduct_self, magnitude,
    Real.mul_self_sqrt (sumSq_nonneg a)]
  exact div_self hs0

/-- C6: `cosineSimilarity` is a total function (it never raises); it returns 0
whenever an input is absent/not an array, whenever the two vectors have
differing lengths, whenever they are empty, and whenever either vector has
zero magnitude (in particular for a zero vector paired with anything);
otherwise it returns the dot product divided by the product of the
magnitudes.  Stated as: the source function coincides everywhere with
`cosineSimilaritySpec`, the definition written from the spec's words. -/
theorem claim_C6_cosine_similarity_total :
    ∀ oa ob : Option (List ℝ), cosineSimilarity oa ob = cosineSimilaritySpec oa ob :=
  cosineSimilarity_eq_spec

/-- C7: for every numeric vector with at least one nonzero entry, the cosine
similarity of the vector with itself is exactly 1 (the real-number model of
the floating-point computation). -/
theorem claim_C7_self_similarity (a : List ℝ) (h : ∃ x ∈ a, x ≠ 0) :
    cosineSimilarity (some a) (some a) = 1 :=
  cosineSimilarity_self a h

theorem claim_C7_self_similarity_witness :
    (∃ x ∈ [(1:ℝ), 0], x ≠ 0) ∧ cosineSimilarity (some [(1:ℝ), 0]) (some [(1:ℝ), 0]) = 1 := by
  have h : ∃ x ∈ [(1:ℝ), 0], x ≠ 0 := ⟨1, by simp, one_ne_zero⟩
  exact ⟨h, claim_C7_self_similarity [(1:ℝ), 0] h⟩

theorem beq_comm' (a b : String) : (a == b) = (b == a) := by
  by_cases h : a = b
  · subst h; rfl
  · rw [beq_eq_false_iff_ne.mpr h, beq_eq_false_iff_ne.mpr (Ne.symm h)]

theorem succ_beq_succ' (n i : ℕ) : (n + 1 == i + 1) = (n == i) := by
  by_cases h : n = i
  · subst h; simp
  · rw [beq_eq_false_iff_ne.mpr h, beq_eq_false_iff_ne.mpr (by omega)]

theorem jsDedupe_nil : jsDedupe [] = [] := rfl

theorem jsDedupe_cons (x : SearchResult) (xs : List SearchResult) :
    jsDedupe (x :: xs) = x :: (xs.enum.filter
      (fun p => !(x.id == p.2.id) &&
        (xs.findIdx (fun t => t.id == p.2.id) == p.1))).map Prod.snd := by
  unfold jsDedupe
  rw [List.enum_cons']
  rw [List.filter_cons]
  have h0 : (((x :: xs).findIdx (fun t => t.id == (0, x).2.id) == (0, x).1)) = true := by
    simp [List.findIdx_cons]
  rw [h0]
  simp only [if_true]
  rw [List.filter_map, List.map_cons, List.map_map]
  congr 1
  · have hpred : ∀ p : ℕ × SearchResult,
        ((fun p : ℕ × SearchResult =>
            (x :: xs).findIdx (fun t => t.id == p.2.id) == p.1) ∘
          Prod.map (· + 1) id) p
        = (fun p : ℕ × SearchResult => !(x.id == p.2.id) &&
            (xs.findIdx (fun t => t.id == p.2.id) == p.1)) p := by
      rintro ⟨i, a⟩
      simp only [Function.comp_apply, Prod.map_apply, id_eq, List.findIdx_cons]
      cases h : x.id == a.id
      · simp only [cond_false, Bool.not_false, Bool.true_and]
        exact succ_beq_succ' _ i
      · simp only [cond_true, Bool.not_true, Bool.false_and]
        rfl
    rw [List.filter_congr (fun p _ => hpred p)]
    rw [show (Prod.snd ∘ Prod.map (· + 1) (id : SearchResult → SearchResult))
        = (Prod.snd : ℕ × SearchResult → SearchResult) from funext fun p => rfl]

theorem all_ne_eq_false {bad : List String} {v : String}
    (hy : bad.all (fun s => !(s == v)) = false) :
    ∃ s ∈ bad, s = v := by
  have h1 : ¬ ∀ s ∈ bad, (!(s == v)) = true := by
    rw [← List.all_eq_true]
    simp [hy]
  push_neg at h1
  obtain ⟨s, hs, hns⟩ := h1
  refine ⟨s, hs, ?_⟩
  have : (s == v) = true := by
    cases hb : s == v
    · exact absurd (by rw [hb]; rfl) hns
    · rfl
  exact eq_of_beq this

theorem dedupe_aux : ∀ (n : ℕ) (bad : List String) (ys : List SearchResult),
    ys.length ≤ n →
    (ys.enum.filter (fun p => bad.all (fun s => !(s == p.2.id)) &&
        (ys.findIdx (fun t => t.id == p.2.id) == p.1))).map Prod.snd
    = jsDedupe (ys.filter (fun y => bad.all (fun s => !(s == y.id)))) := by
  intro n
  induction n with
  | zero =>
    intro bad ys hlen
    have h0 : ys = [] := List.length_eq_zero.mp (Nat.le_zero.mp hlen)
    subst h0
    rfl
  | succ n ih =>
    intro bad ys hlen
    match ys with
    | [] => rfl
    | y :: ys' =>
      have hlen' : ys'.length ≤ n := by
        simp only [List.length_cons] at hlen; omega
      rw [List.enum_cons', List.filter_cons]
      have hfind0 : (((y :: ys').findIdx (fun t => t.id == (0, y).2.id) == (0, y).1)) = true := by
        simp [List.findIdx_cons]
      cases hy : bad.all (fun s => !(s == y.id))
      -- bad excludes y: the head is dropped on both sides
      · obtain ⟨s, hsmem, hsv⟩ := all_ne_eq_false hy
        subst hsv
        simp only [Bool.false_and, Bool.false_eq_true, if_false]
        rw [List.filter_map, List.map_map]
        have hpred : ∀ p : ℕ × SearchResult, p ∈ ys'.enum →
            ((fun p : ℕ × SearchResult => bad.all (fun s' => !(s' == p.2.id)) &&
                ((y :: ys').findIdx (fun t => t.id == p.2.id) == p.1)) ∘
              Prod.map (· + 1) id) p
            = (fun p : ℕ × SearchResult => bad.all (fun s' => !(s' == p.2.id)) &&
                (ys'.findIdx (fun t => t.id == p.2.id) == p.1)) p := by
          rintro ⟨i, a⟩ _
          simp only [Function.comp_apply, Prod.map_apply, id_eq, List.findIdx_cons]
          cases h : y.id == a.id
          · simp only [cond_false, succ_beq_succ']
          · have hid : a.id = y.id := (eq_of_beq h).symm
            have hall : bad.all (fun s' => !(s' == a.id)) = false := by
              cases hall : bad.all (fun s' => !(s' == a.id))
              · rfl
              · exfalso
                have := List.all_eq_true.mp hall y.id hsmem
                rw [hid, beq_self_eq_true] at this
                exact absurd this (by simp)
            simp only [hall, Bool.false_and]
        rw [List.filter_congr hpred]
        rw [show (Prod.snd ∘ Prod.map (· + 1) (id : SearchResult → SearchResult))
            = (Prod.snd : ℕ × SearchResult → SearchResult) from funext fun p => rfl]
        rw [ih bad ys' hlen']
        rw [List.filter_cons]
        rw [show (bad.all fun s' => !(s' == y.id)) = false from hy]
        simp only [Bool.false_eq_true, if_false]
      -- y survives: stays at the head on both sides
      · simp only [Bool.true_and, hfind0, if_true]
        rw [List.filter_map, List.map_cons, List.map_map]
        have hpred : ∀ p : ℕ × SearchResult, p ∈ ys'.enum →
            ((fun p : ℕ × SearchResult => bad.all (fun s' => !(s' == p.2.id)) &&
                ((y :: ys').findIdx (fun t => t.id == p.2.id) == p.1)) ∘
              Prod.map (· + 1) id) p
            = (fun p : ℕ × SearchResult => (y.id :: bad).all (fun s' => !(s' == p.2.id)) &&
                (ys'.findIdx (fun t => t.id == p.2.id) == p.1)) p := by
          rintro ⟨i, a⟩ _
          simp only [Function.comp_apply, Prod.map_apply, id_eq, List.findIdx_cons,
            List.all_cons]
          cases h : y.id == a.id
          · simp only [cond_false, succ_beq_succ', Bool.not_false, Bool.true_and]
          · simp only [cond_true, Bool.not_true, Bool.false_and]
            rw [show ((0 : ℕ) == i + 1) = false from rfl]
            simp
        rw [List.filter_congr hpred]
        rw [show (Prod.snd ∘ Prod.map (· + 1) (id : SearchResult → SearchResult))
            = (Prod.snd : ℕ × SearchResult → SearchResult) from funext fun p => rfl]
        rw [ih (y.id :: bad) ys' hlen']
        -- right-hand side: y is kept by the filter, then `jsDedupe` peels it
        rw [List.filter_cons]
        rw [show (bad.all fun s' => !(s' == y.id)) = true from hy]
        simp only [if_true]
        rw [jsDedupe_cons]
        congr 1
        have hlenF : (ys'.filter (fun y' => bad.all fun s' => !(s' == y'.id))).length ≤ n :=
          le_trans (List.length_filter_le _ ys') hlen'
        have h2 := ih [y.id] (ys'.filter (fun y' => bad.all fun s' => !(s' == y'.id))) hlenF
        have hpred2 : ∀ p : ℕ × SearchResult,
            p ∈ (ys'.filter (fun y' => bad.all fun s' => !(s' == y'.id))).enum →
            (fun p : ℕ × SearchResult => !(y.id == p.2.id) &&
              ((ys'.filter (fun y' => bad.all fun s' => !(s' == y'.id))).findIdx
                (fun t => t.id == p.2.id) == p.1)) p
            = (fun p : ℕ × SearchResult => [y.id].all (fun s' => !(s' == p.2.id)) &&
              ((ys'.filter (fun y' => bad.all fun s' => !(s' == y'.id))).findIdx
                (fun t => t.id == p.2.id) == p.1)) p := by
          rintro ⟨i, a⟩ _
          simp
        rw [List.filter_congr hpred2, h2]
        congr 1
        rw [List.filter_filter]
        apply List.filter_congr
        rintro a _
        simp only [List.all_cons, List.all_nil, Bool.and_true]

theorem dedupeKeepFirst_nil : dedupeKeepFirst [] = [] := by
  rw [dedupeKeepFirst]

theorem dedupeKeepFirst_cons (x : SearchResult) (xs : List SearchResult) :
    dedupeKeepFirst (x :: xs) =
      x :: dedupeKeepFirst (xs.filter (fun y => !(y.id == x.id))) := by
  rw [dedupeKeepFirst]

/-- The JS `filter`/`findIndex` idiom of lines 325-327 is exactly
"keep the first occurrence of each id". -/
theorem jsDedupe_eq_keepFirst (l : List SearchResult) :
    jsDedupe l = dedupeKeepFirst l := by
  suffices h : ∀ (n : ℕ) (l : List SearchResult), l.length ≤ n →
      jsDedupe l = dedupeKeepFirst l from h l.length l le_rfl
  intro n
  induction n with
  | zero =>
    intro l hl
    have h0 : l = [] := List.length_eq_zero.mp (Nat.le_zero.mp hl)
    subst h0
    rw [jsDedupe_nil, dedupeKeepFirst_nil]
  | succ n ih =>
    intro l hl
    match l with
    | [] => rw [jsDedupe_nil, dedupeKeepFirst_nil]
    | x :: xs =>
      have hxs : xs.length ≤ n := by
        simp only [List.length_cons] at hl; omega
      rw [jsDedupe_cons, dedupeKeepFirst_cons]
      have hp : ∀ p : ℕ × SearchResult, p ∈ xs.enum →
          (fun p : ℕ × SearchResult => !(x.id == p.2.id) &&
            (xs.findIdx (fun t => t.id == p.2.id) == p.1)) p
          = (fun p : ℕ × SearchResult => [x.id].all (fun s => !(s == p.2.id)) &&
            (xs.findIdx (fun t => t.id == p.2.id) == p.1)) p := by
        rintro ⟨i, a⟩ _
        simp
      rw [List.filter_congr hp, dedupe_aux n [x.id] xs hxs]
      rw [ih (xs.filter (fun y => [x.id].all fun s => !(s == y.id)))
        (le_trans (List.length_filter_le _ xs) hxs)]
      congr 2
      apply List.filter_congr
      intro a _
      show ([x.id].all fun s => !(s == a.id)) = !(a.id == x.id)
      simp only [List.all_cons, List.all_nil, Bool.and_true]
      rw [beq_comm']

theorem semScore_some {qe : List ℝ} {threshold : ℝ} {it : DbRow} {r : SearchResult}
    (h : semScore qe threshold it = some r) :
    ∃ v, it.embedding = StoredEmbedding.vec v ∧ 0 < v.length ∧
      threshold ≤ cosineSimilarity (some qe) (some v) ∧
      r = { id := it.uuid, title := it.title, description := it.description,
            content := it.content, type := it.type,
            score := cosineSimilarity (some qe) (some v),
            metadata := it.metadata } := by
  cases hemb : it.embedding with
  | nullish => simp [semScore, hemb] at h
  | invalid => simp [semScore, hemb] at h
  | vec v =>
    simp only [semScore, hemb] at h
    by_cases h1 : 0 < v.length
    · rw [if_pos h1] at h
      by_cases h2 : threshold ≤ cosineSimilarity (some qe) (some v)
      · rw [if_pos h2] at h
        exact ⟨v, rfl, h1, h2, (Option.some_inj.mp h).symm⟩
      · rw [if_neg h2] at h; simp at h
    · rw [if_neg h1] at h; simp at h

theorem cosineSimilarity_ne_zero {a b : List ℝ}
    (h : cosineSimilarity (some a) (some b) ≠ 0) :
    a.length = b.length ∧ a.length ≠ 0 := by
  by_cases h1 : a.length ≠ b.length
  · exfalso; apply h; simp only [cosineSimilarity]; rw [if_pos h1]
  · refine ⟨by omega, ?_⟩
    intro h2
    apply h
    simp only [cosineSimilarity]
    rw [if_neg h1, if_pos h2]

theorem pairwise_sorted (l : List SearchResult) :
    (l.mergeSort (fun a b => decide (b.score ≤ a.score))).Pairwise
      (fun a b : SearchResult => b.score ≤ a.score) := by
  have h := @List.sorted_mergeSort SearchResult
    (fun a b : SearchResult => decide (b.score ≤ a.score))
    (fun a b c h1 h2 => by
      simp only [decide_eq_true_eq] at *
      exact le_trans h2 h1)
    (fun a b => by
      simp only [Bool.or_eq_true, decide_eq_true_eq]
      exact le_total b.score a.score)
    l
  exact h.imp (fun hab => by simpa using hab)

/-- C2 (amended): in semantic mode, when the query embedding succeeded,
every returned entry scores at least the threshold, the list is sorted by
descending score, and its length is at most the limit; and provided the
threshold is positive, every returned entry comes from a stored row whose
embedding is a non-null, nonempty vector of the query's dimensionality,
scored by cosine similarity against the query vector.  (The positivity
proviso is forced: a row of mismatched dimensionality is scored 0, so it is
returned whenever the caller passes a threshold ≤ 0 — see the
counterexample.) -/
theorem claim_C2_semantic_search (qe : List ℝ) (db : List DbRow) (limit : ℕ)
    (threshold : ℝ) :
    (∀ r ∈ semanticSearch (some qe) (Except.ok db) limit threshold,
        threshold ≤ r.score)
    ∧ (semanticSearch (some qe) (Except.ok db) limit threshold).Pairwise
        (fun a b => b.score ≤ a.score)
    ∧ (semanticSearch (some qe) (Except.ok db) limit threshold).length ≤ limit
    ∧ (0 < threshold →
        ∀ r ∈ semanticSearch (some qe) (Except.ok db) limit threshold,
          ∃ it ∈ db, ∃ v, it.embedding = StoredEmbedding.vec v ∧ v ≠ [] ∧
            v.length = qe.length ∧ r.id = it.uuid ∧
            r.score = cosineSimilarity (some qe) (some v)) := by
  have hunf : semanticSearch (some qe) (Except.ok db) limit threshold =
      ((db.filterMap (semScore qe threshold)).mergeSort
        (fun a b => decide (b.score ≤ a.score))).take limit := rfl
  refine ⟨?_, ?_, ?_, ?_⟩
  · intro r hr
    rw [hunf] at hr
    have hr2 := List.mem_of_mem_take hr
    rw [List.mem_mergeSort, List.mem_filterMap] at hr2
    obtain ⟨it, _, hsc⟩ := hr2
    obtain ⟨v, _, _, hth, hreq⟩ := semScore_some hsc
    subst hreq
    exact hth
  · rw [hunf]
    exact List.Pairwise.sublist (List.take_sublist _ _) (pairwise_sorted _)
  · rw [hunf, List.length_take]
    exact min_le_left _ _
  · intro hpos r hr
    rw [hunf] at hr
    have hr2 := List.mem_of_mem_take hr
    rw [List.mem_mergeSort, List.mem_filterMap] at hr2
    obtain ⟨it, hit, hsc⟩ := hr2
    obtain ⟨v, hv, hvl, hth, hreq⟩ := semScore_some hsc
    have hsne : cosineSimilarity (some qe) (some v) ≠ 0 :=
      (lt_of_lt_of_le hpos hth).ne'
    obtain ⟨hlen, _⟩ := cosineSimilarity_ne_zero hsne
    subst hreq
    exact ⟨it, hit, v, hv, List.length_pos.mp hvl, hlen.symm, rfl, rfl⟩

theorem claim_C2_semantic_search_witness :
    (semanticSearch (some [(1:ℝ)]) (Except.ok []) 5 (7/10)).length ≤ 5 :=
  (claim_C2_semantic_search [(1:ℝ)] [] 5 (7/10)).2.2.1

/-- C2 is false as stated: with query vector `[1, 0]` and the stored row
`rowA`, whose embedding `[3]` does not have the query's dimensionality, a
semantic search invoked with threshold `-1` returns an entry for `rowA`
(scored `0 ≥ -1`), so a returned entry need not come from a row with an
embedding of the correct dimensionality. -/
theorem claim_C2_counterexample :
    ¬ (∀ r ∈ semanticSearch (some [(1:ℝ), 0]) (Except.ok [rowA]) 5 (-1),
        ∃ v, rowA.embedding = StoredEmbedding.vec v ∧
          v.length = ([(1:ℝ), 0]).length) := by
  intro hall
  have hsim : cosineSimilarity (some [(1:ℝ), 0]) (some [(3:ℝ)]) = 0 := by
    simp only [cosineSimilarity]
    rw [if_pos (by simp)]
  have hscore : semScore [(1:ℝ), 0] (-1) rowA = some
      { id := "a", title := "A", description := none, content := none,
        type := "document", score := 0, metadata := "" } := by
    simp only [semScore, rowA, hsim]
    rw [if_pos (by simp), if_pos (by norm_num)]
  have hres : semanticSearch (some [(1:ℝ), 0]) (Except.ok [rowA]) 5 (-1) =
      [{ id := "a", title := "A", description := none, content := none,
         type := "document", score := 0, metadata := "" }] := by
    show (([rowA].filterMap (semScore [(1:ℝ), 0] (-1))).mergeSort
        (fun a b => decide (b.score ≤ a.score))).take 5 = _
    rw [List.filterMap_cons, hscore]
    simp
  have hmem := hall
    { id := "a", title := "A", description := none, content := none,
      type := "document", score := 0, metadata := "" }
    (by rw [hres]; exact List.mem_singleton.mpr rfl)
  obtain ⟨v, hv, hlen⟩ := hmem
  have hv3 : StoredEmbedding.vec [(3:ℝ)] = StoredEmbedding.vec v := by
    rw [← hv]; rfl
  have : v = [(3:ℝ)] := by
    injection hv3 with h
    exact h.symm
  subst this
  simp at hlen

theorem mem_dedupeKeepFirst {r : SearchResult} :
    ∀ {l : List SearchResult}, r ∈ dedupeKeepFirst l → r ∈ l := by
  suffices h : ∀ (n : ℕ) (l : List SearchResult), l.length ≤ n →
      r ∈ dedupeKeepFirst l → r ∈ l from fun {l} => h l.length l le_rfl
  intro n
  induction n with
  | zero =>
    intro l hl hm
    rw [List.length_eq_zero.mp (Nat.le_zero.mp hl), dedupeKeepFirst_nil] at hm
    exact absurd hm (List.not_mem_nil r)
  | succ n ih =>
    intro l hl hm
    match l with
    | [] => rw [dedupeKeepFirst_nil] at hm; exact hm
    | x :: xs =>
      rw [dedupeKeepFirst_cons] at hm
      rcases List.mem_cons.mp hm with h1 | h1
      · exact h1 ▸ List.mem_cons_self x xs
      · have hxs : xs.length ≤ n := by simp only [List.length_cons] at hl; omega
        have h2 := ih (xs.filter (fun y => !(y.id == x.id)))
          (le_trans (List.length_filter_le _ xs) hxs) h1
        exact List.mem_cons_of_mem x (List.mem_of_mem_filter h2)

theorem dedupeKeepFirst_append_left {r : SearchResult} :
    ∀ (n : ℕ) (s k : List SearchResult), s.length ≤ n →
      r ∈ dedupeKeepFirst (s ++ k) → (∃ y ∈ s, y.id = r.id) → r ∈ s := by
  intro n
  induction n with
  | zero =>
    intro s k hs _ hex
    obtain ⟨y, hy, _⟩ := hex
    rw [List.length_eq_zero.mp (Nat.le_zero.mp hs)] at hy
    exact absurd hy (List.not_mem_nil y)
  | succ n ih =>
    intro s k hs hm hex
    match s with
    | [] =>
      obtain ⟨y, hy, _⟩ := hex
      exact absurd hy (List.not_mem_nil y)
    | x :: s' =>
      rw [List.cons_append, dedupeKeepFirst_cons] at hm
      rcases List.mem_cons.mp hm with h1 | h1
      · exact h1 ▸ List.mem_cons_self x s'
      · have hrf : r ∈ (s' ++ k).filter (fun y => !(y.id == x.id)) :=
          mem_dedupeKeepFirst h1
        have hrx : (r.id == x.id) = false := by
          have hp := (List.mem_filter.mp hrf).2
          simp only [Bool.not_eq_true'] at hp
          exact hp
        rw [List.filter_append] at h1
        have hs' : s'.length ≤ n := by simp only [List.length_cons] at hs; omega
        have hexf : ∃ y ∈ s'.filter (fun y => !(y.id == x.id)), y.id = r.id := by
          obtain ⟨y, hy, hyid⟩ := hex
          rcases List.mem_cons.mp hy with hyx | hys'
          · exfalso
            subst hyx
            rw [beq_eq_false_iff_ne] at hrx
            exact hrx hyid.symm
          · refine ⟨y, List.mem_filter.mpr ⟨hys', ?_⟩, hyid⟩
            rw [hyid, hrx]
            rfl
        have h2 := ih (s'.filter (fun y => !(y.id == x.id)))
          (k.filter (fun y => !(y.id == x.id)))
          (le_trans (List.length_filter_le _ s') hs') h1 hexf
        exact List.mem_cons_of_mem x (List.mem_of_mem_filter h2)

theorem dedupeKeepFirst_of_nodup :
    ∀ (l : List SearchResult), (l.map SearchResult.id).Nodup →
      dedupeKeepFirst l = l := by
  intro l
  induction l with
  | nil => intro _; rw [dedupeKeepFirst_nil]
  | cons x xs ih =>
    intro hnd
    rw [List.map_cons, List.nodup_cons] at hnd
    obtain ⟨hx, hxs⟩ := hnd
    rw [dedupeKeepFirst_cons]
    have hfe : xs.filter (fun y => !(y.id == x.id)) = xs := by
      rw [List.filter_eq_self]
      intro a ha
      have hne : a.id ≠ x.id := by
        intro he
        exact hx (he ▸ List.mem_map_of_mem SearchResult.id ha)
      simp [hne]
    rw [hfe, ih hxs]

theorem effLimit_pos (opts : SearchOptions) : 1 ≤ effLimit opts := by
  unfold effLimit
  cases opts.limit with
  | none => show (1:ℕ) ≤ 5; omega
  | some n =>
    show 1 ≤ if n = 0 then 5 else n
    split <;> omega

theorem effLimit_of_some {opts : SearchOptions} {L : ℕ} (hL : opts.limit = some L)
    (hL0 : L ≠ 0) : effLimit opts = L := by
  unfold effLimit
  rw [hL]
  exact if_neg hL0

theorem search_hybrid_unfold (query : String) (opts : SearchOptions)
    (env : SearchEnv) (h : effMode opts = SearchMode.hybrid) :
    search query opts env =
      (jsDedupe (semanticSearch env.queryEmbedding env.semanticRows
          ((effLimit opts + 1) / 2) (effThreshold opts)
        ++ keywordSearch (env.ftsRows ((effLimit opts + 1) / 2)))).take
        (effLimit opts) := by
  simp only [search, h]

/-- C1: a hybrid-mode search with an explicit (truthy) limit `L` is exactly
the keep-first-occurrence-by-id deduplication of the semantic pass asked for
`ceil(L/2)` results followed by the keyword pass asked for `ceil(L/2)`
results, truncated to at most `L`; when an id occurs in both passes the
surviving entry is the semantic one (with its score), because the semantic
list is concatenated first. -/
theorem claim_C1_hybrid_merge (query : String) (env : SearchEnv)
    (opts : SearchOptions) (L : ℕ) (hL : opts.limit = some L) (hL0 : L ≠ 0)
    (hmode : opts.type = some SearchMode.hybrid) :
    search query opts env =
      (dedupeKeepFirst
        (semanticSearch env.queryEmbedding env.semanticRows ((L + 1) / 2)
            (effThreshold opts)
          ++ keywordSearch (env.ftsRows ((L + 1) / 2)))).take L
    ∧ (search query opts env).length ≤ L
    ∧ (∀ r ∈ search query opts env,
        (∃ y ∈ semanticSearch env.queryEmbedding env.semanticRows
            ((L + 1) / 2) (effThreshold opts), y.id = r.id) →
        r ∈ semanticSearch env.queryEmbedding env.semanticRows
            ((L + 1) / 2) (effThreshold opts)) := by
  have hLe : effLimit opts = L := effLimit_of_some hL hL0
  have hme : effMode opts = SearchMode.hybrid := by unfold effMode; rw [hmode]
  have hu := search_hybrid_unfold query opts env hme
  rw [hLe] at hu
  refine ⟨?_, ?_, ?_⟩
  · rw [hu, jsDedupe_eq_keepFirst]
  · rw [hu, List.length_take]
    exact min_le_left _ _
  · intro r hr hex
    rw [hu, jsDedupe_eq_keepFirst] at hr
    have hr2 := List.mem_of_mem_take hr
    exact dedupeKeepFirst_append_left
      (semanticSearch env.queryEmbedding env.semanticRows ((L + 1) / 2)
        (effThreshold opts)).length _ _ le_rfl hr2 hex

theorem claim_C1_hybrid_merge_witness :
    (search "q" optsHybrid4 envEmpty).length ≤ 4 :=
  (claim_C1_hybrid_merge "q" envEmpty optsHybrid4 4 rfl (by decide) rfl).2.1

theorem genLoop_value_none {p : ℕ → AttemptOutcome}
    (hp : ∀ i, isFailure (p i) = true) :
    ∀ (fuel attempt : ℕ), (genLoop p attempt fuel).value = none := by
  intro fuel
  induction fuel with
  | zero => intro attempt; rfl
  | succ fuel ih =>
    intro attempt
    have hfail := hp attempt
    cases hpa : p attempt with
    | ok v => rw [hpa] at hfail; simp [isFailure] at hfail
    | httpError s b =>
      simp only [genLoop, hpa]
      split
      · exact ih (attempt + 1)
      · rfl
    | netError m =>
      simp only [genLoop, hpa]
      split
      · exact ih (attempt + 1)
      · rfl

theorem keywordSearch_ok_ids (rows : List DbRow) :
    (keywordSearch (Except.ok rows)).map SearchResult.id = rows.map DbRow.uuid := by
  show (rows.map _).map SearchResult.id = _
  rw [List.map_map]
  rfl

theorem semanticSearch_length_le (qe : Option (List ℝ))
    (dbr : Except String (List DbRow)) (limit : ℕ) (threshold : ℝ) :
    (semanticSearch qe dbr limit threshold).length ≤ limit := by
  cases qe with
  | none => show ([] : List SearchResult).length ≤ limit; simp
  | some q =>
    cases dbr with
    | error e => show ([] : List SearchResult).length ≤ limit; simp
    | ok data =>
      show (((data.filterMap (semScore q threshold)).mergeSort
        (fun a b => decide (b.score ≤ a.score))).take limit).length ≤ limit
      rw [List.length_take]
      exact min_le_left _ _

theorem search_length_le (query : String) (opts : SearchOptions) (env : SearchEnv)
    (hfts : ∀ rows, env.ftsRows (effLimit opts) = Except.ok rows →
      rows.length ≤ effLimit opts) :
    (search query opts env).length ≤ effLimit opts := by
  cases hm : effMode opts with
  | semantic =>
    simp only [search, hm]
    exact semanticSearch_length_le _ _ _ _
  | keyword =>
    simp only [search, hm]
    cases hf : env.ftsRows (effLimit opts) with
    | error e => show ([] : List SearchResult).length ≤ _; simp
    | ok rows =>
      show (rows.map _).length ≤ _
      rw [List.length_map]
      exact hfts rows hf
  | hybrid =>
    simp only [search, hm]
    rw [List.length_take]
    exact min_le_left _ _

/-- C4: failures degrade to empty results instead of propagating.
A provider that fails on every attempt makes `generateEmbedding` resolve to
`null` (never an exception); a missing query embedding or a failed store read
makes the semantic pass return `[]`; a failed full-text read makes the
keyword pass return `[]`; a semantic-mode search whose embedding failed
returns `[]`; and a hybrid-mode search whose embedding failed returns exactly
the keyword pass's results (the surviving pass). -/
theorem claim_C4_graceful_degradation :
    (∀ p : ℕ → AttemptOutcome, (∀ i, isFailure (p i) = true) →
      (generateEmbedding true p).value = none)
    ∧ (∀ (dbr : Except String (List DbRow)) (limit : ℕ) (threshold : ℝ),
        semanticSearch none dbr limit threshold = [])
    ∧ (∀ (qe : List ℝ) (e : String) (limit : ℕ) (threshold : ℝ),
        semanticSearch (some qe) (Except.error e) limit threshold = [])
    ∧ (∀ e : String, keywordSearch (Except.error e) = [])
    ∧ (∀ (query : String) (opts : SearchOptions) (env : SearchEnv),
        effMode opts = SearchMode.semantic → env.queryEmbedding = none →
        search query opts env = [])
    ∧ (∀ (query : String) (opts : SearchOptions) (env : SearchEnv)
        (rows : List DbRow), effMode opts = SearchMode.hybrid →
        env.queryEmbedding = none →
        env.ftsRows ((effLimit opts + 1) / 2) = Except.ok rows →
        (rows.map DbRow.uuid).Nodup →
        rows.length ≤ (effLimit opts + 1) / 2 →
        search query opts env =
          keywordSearch (env.ftsRows ((effLimit opts + 1) / 2))) := by
  refine ⟨?_, ?_, ?_, ?_, ?_, ?_⟩
  · intro p hp
    unfold generateEmbedding
    rw [if_pos rfl]
    exact genLoop_value_none hp maxRetries 1
  · intro dbr limit threshold; rfl
  · intro qe e limit threshold; rfl
  · intro e; rfl
  · intro query opts env hm he
    simp only [search, hm, he]
    rfl
  · intro query opts env rows hm he hfts hnd hlen
    rw [search_hybrid_unfold query opts env hm, he]
    have hsem : semanticSearch none env.semanticRows ((effLimit opts + 1) / 2)
        (effThreshold opts) = [] := rfl
    rw [hsem, List.nil_append, jsDedupe_eq_keepFirst, hfts]
    rw [dedupeKeepFirst_of_nodup _ (by rw [keywordSearch_ok_ids]; exact hnd)]
    apply List.take_of_length_le
    have h1 : (keywordSearch (Except.ok rows)).length = rows.length := by
      show (rows.map _).length = _
      rw [List.length_map]
    have h2 := effLimit_pos opts
    rw [h1]
    omega

theorem claim_C4_graceful_degradation_witness :
    (generateEmbedding true pDns).value = none :=
  claim_C4_graceful_degradation.1 pDns (fun _ => rfl)

/-- C5: the controller rejects an empty query string with the validation
error `query is required`, for every choice of options; the reply is
produced without consulting the environment (no network or storage call), as
the statement holds for every `env`. -/
theorem claim_C5_empty_query_rejected (opts : SearchOptions) (env : SearchEnv) :
    searchController "" opts env = ControllerReply.badRequest "query is required" := by
  unfold searchController
  rw [if_pos rfl]

/-- C9: every keyword-mode match carries the fixed score 0.8; at most
`limit` matches are returned provided the full-text provider honours the
requested limit; and the matches appear in provider order (the returned ids
are exactly the returned rows' uuids, in order). -/
theorem claim_C9_keyword_fixed_score (fts : ℕ → Except String (List DbRow))
    (limit : ℕ)
    (hcontract : ∀ rows, fts limit = Except.ok rows → rows.length ≤ limit) :
    (∀ r ∈ keywordSearch (fts limit), r.score = 0.8)
    ∧ (keywordSearch (fts limit)).length ≤ limit
    ∧ (∀ rows, fts limit = Except.ok rows →
        (keywordSearch (fts limit)).map SearchResult.id = rows.map DbRow.uuid) := by
  refine ⟨?_, ?_, ?_⟩
  · intro r hr
    cases hf : fts limit with
    | error e =>
      rw [hf] at hr
      exact absurd hr (List.not_mem_nil r)
    | ok rows =>
      rw [hf] at hr
      simp only [keywordSearch, List.mem_map] at hr
      obtain ⟨it, _, hit⟩ := hr
      rw [← hit]
  · cases hf : fts limit with
    | error e =>
      show ([] : List SearchResult).length ≤ limit
      simp
    | ok rows =>
      show (rows.map _).length ≤ limit
      rw [List.length_map]
      exact hcontract rows hf
  · intro rows hf
    rw [hf]
    exact keywordSearch_ok_ids rows

theorem claim_C9_keyword_fixed_score_witness :
    (keywordSearch (envEmpty.ftsRows 3)).length ≤ 3 :=
  (claim_C9_keyword_fixed_score envEmpty.ftsRows 3 (fun rows h => by
    have h2 : ([] : List DbRow) = rows := by
      have h3 : envEmpty.ftsRows 3 = Except.ok [] := rfl
      rw [h3] at h
      exact Except.ok.inj h
    rw [← h2]
    simp)).2.1

/-- C10: a search whose options carry the explicitly falsy values
`limit = 0` and `threshold = 0` behaves exactly as a search with the options
absent (defaults 5 and 0.7), and under the provider limit contract it
returns at most 5 results — not 0. -/
theorem claim_C10_falsy_options_default (query : String) (env : SearchEnv)
    (mode : Option SearchMode) :
    search query (optsZeroes mode) env = search query (optsNones mode) env
    ∧ ((∀ rows, env.ftsRows 5 = Except.ok rows → rows.length ≤ 5) →
        (search query (optsZeroes mode) env).length ≤ 5) := by
  have hLz : effLimit (optsZeroes mode) = 5 := rfl
  have hLn : effLimit (optsNones mode) = 5 := rfl
  have hTz : effThreshold (optsZeroes mode) = 0.7 := by
    show (if (0:ℝ) = 0 then (0.7:ℝ) else 0) = (0.7:ℝ)
    exact if_pos rfl
  have hTn : effThreshold (optsNones mode) = 0.7 := rfl
  have hMzn : effMode (optsZeroes mode) = effMode (optsNones mode) := rfl
  constructor
  · simp only [search, hLz, hLn, hTz, hTn, hMzn]
  · intro hfts
    have h := search_length_le query (optsZeroes mode) env
      (fun rows hr => hfts rows hr)
    exact h

theorem claim_C10_falsy_options_default_witness :
    search "q" (optsZeroes none) envEmpty = search "q" (optsNones none) envEmpty :=
  (claim_C10_falsy_options_default "q" envEmpty none).1

theorem genLoop_calls_le (p : ℕ → AttemptOutcome) :
    ∀ (fuel attempt : ℕ), (genLoop p attempt fuel).calls ≤ fuel := by
  intro fuel
  induction fuel with
  | zero => intro attempt; exact Nat.le_refl 0
  | succ fuel ih =>
    intro attempt
    cases hpa : p attempt with
    | ok v =>
      simp only [genLoop, hpa]
      omega
    | httpError s b =>
      simp only [genLoop, hpa]
      split
      · show (genLoop p (attempt + 1) fuel).calls + 1 ≤ fuel + 1
        have := ih (attempt + 1)
        omega
      · show 1 ≤ fuel + 1
        omega
    | netError m =>
      simp only [genLoop, hpa]
      split
      · show (genLoop p (attempt + 1) fuel).calls + 1 ≤ fuel + 1
        have := ih (attempt + 1)
        omega
      · show 1 ≤ fuel + 1
        omega

theorem genLoop_delays_fixed (p : ℕ → AttemptOutcome) :
    ∀ (fuel attempt : ℕ), ∀ d ∈ (genLoop p attempt fuel).delays, d = retryDelayMs := by
  intro fuel
  induction fuel with
  | zero =>
    intro attempt d hd
    exact absurd hd (List.not_mem_nil d)
  | succ fuel ih =>
    intro attempt d hd
    cases hpa : p attempt with
    | ok v =>
      rw [show (genLoop p attempt (fuel + 1)).delays = [] by simp only [genLoop, hpa]] at hd
      exact absurd hd (List.not_mem_nil d)
    | httpError s b =>
      simp only [genLoop, hpa] at hd
      by_cases hc : attempt < maxRetries ∧
          isTransientMsg (errMessage (AttemptOutcome.httpError s b)) = true
      · rw [if_pos hc] at hd
        have hd2 : d ∈ retryDelayMs :: (genLoop p (attempt + 1) fuel).delays := hd
        rcases List.mem_cons.mp hd2 with h1 | h1
        · exact h1
        · exact ih (attempt + 1) d h1
      · rw [if_neg hc] at hd
        exact absurd hd (List.not_mem_nil d)
    | netError m =>
      simp only [genLoop, hpa] at hd
      by_cases hc : attempt < maxRetries ∧
          isTransientMsg (errMessage (AttemptOutcome.netError m)) = true
      · rw [if_pos hc] at hd
        have hd2 : d ∈ retryDelayMs :: (genLoop p (attempt + 1) fuel).delays := hd
        rcases List.mem_cons.mp hd2 with h1 | h1
        · exact h1
        · exact ih (attempt + 1) d h1
      · rw [if_neg hc] at hd
        exact absurd hd (List.not_mem_nil d)

theorem genLoop_retried_transient (p : ℕ → AttemptOutcome) :
    ∀ (fuel attempt : ℕ), ∀ i, attempt ≤ i →
      i + 1 < attempt + (genLoop p attempt fuel).calls →
      isFailure (p i) = true ∧ isTransientMsg (errMessage (p i)) = true ∧
        i < maxRetries := by
  intro fuel
  induction fuel with
  | zero =>
    intro attempt i hle hlt
    exfalso
    have hc : (genLoop p attempt 0).calls = 0 := rfl
    omega
  | succ fuel ih =>
    intro attempt i hle hlt
    cases hpa : p attempt with
    | ok v =>
      exfalso
      have hc : (genLoop p attempt (fuel + 1)).calls = 1 := by
        simp only [genLoop, hpa]
      omega
    | httpError s b =>
      by_cases hcond : attempt < maxRetries ∧
          isTransientMsg (errMessage (AttemptOutcome.httpError s b)) = true
      · have hc : (genLoop p attempt (fuel + 1)).calls =
            (genLoop p (attempt + 1) fuel).calls + 1 := by
          simp only [genLoop, hpa]
          rw [if_pos hcond]
        rcases Nat.eq_or_lt_of_le hle with heq | hlt2
        · subst heq
          exact ⟨by rw [hpa]; rfl, by rw [hpa]; exact hcond.2, hcond.1⟩
        · exact ih (attempt + 1) i hlt2 (by rw [hc] at hlt; omega)
      · exfalso
        have hc : (genLoop p attempt (fuel + 1)).calls = 1 := by
          simp only [genLoop, hpa]
          rw [if_neg hcond]
        omega
    | netError m =>
      by_cases hcond : attempt < maxRetries ∧
          isTransientMsg (errMessage (AttemptOutcome.netError m)) = true
      · have hc : (genLoop p attempt (fuel + 1)).calls =
            (genLoop p (attempt + 1) fuel).calls + 1 := by
          simp only [genLoop, hpa]
          rw [if_pos hcond]
        rcases Nat.eq_or_lt_of_le hle with heq | hlt2
        · subst heq
          exact ⟨by rw [hpa]; rfl, by rw [hpa]; exact hcond.2, hcond.1⟩
        · exact ih (attempt + 1) i hlt2 (by rw [hc] at hlt; omega)
      · exfalso
        have hc : (genLoop p attempt (fuel + 1)).calls = 1 := by
          simp only [genLoop, hpa]
          rw [if_neg hcond]
        omega

theorem generateEmbedding_nontransient_immediate (p : ℕ → AttemptOutcome)
    (hf : isFailure (p 1) = true)
    (ht : isTransientMsg (errMessage (p 1)) = false) :
    generateEmbedding true p = ⟨none, 1, []⟩ := by
  unfold generateEmbedding
  rw [if_pos rfl]
  show genLoop p 1 (2 + 1) = ⟨none, 1, []⟩
  cases hpa : p 1 with
  | ok v => rw [hpa] at hf; simp [isFailure] at hf
  | httpError s b =>
    simp only [genLoop, hpa]
    rw [hpa] at ht
    rw [if_neg (fun hcond => absurd hcond.2 (by simp [ht]))]
  | netError m =>
    simp only [genLoop, hpa]
    rw [hpa] at ht
    rw [if_neg (fun hcond => absurd hcond.2 (by simp [ht]))]

/-- C3 (amended): `generateEmbedding` makes at most 3 provider attempts,
every backoff wait is the fixed 1000 ms (no exponential growth), a retry
after attempt `i` happens only when attempt `i` failed, `i < 3`, and the
failure's error message contains one of the markers `'EAI_AGAIN'`,
`'fetch failed'`, `'getaddrinfo'`; and a first-attempt failure whose message
carries none of the markers resolves to `null` immediately, after exactly
one attempt and no backoff.  (The original claim's "any non-2xx provider
response returns immediately" is false: the thrown message embeds the
response body, so a non-2xx body containing a marker is retried — see the
counterexample.) -/
theorem claim_C3_retry_policy (k : Bool) (p : ℕ → AttemptOutcome) :
    (generateEmbedding k p).calls ≤ 3
    ∧ (∀ d ∈ (generateEmbedding k p).delays, d = 1000)
    ∧ (∀ i, 1 ≤ i → i + 1 < 1 + (generateEmbedding k p).calls →
        isFailure (p i) = true ∧ isTransientMsg (errMessage (p i)) = true ∧
          i < 3)
    ∧ (isFailure (p 1) = true → isTransientMsg (errMessage (p 1)) = false →
        k = true → generateEmbedding k p = ⟨none, 1, []⟩) := by
  cases k with
  | false =>
    refine ⟨?_, ?_, ?_, ?_⟩
    · show (0:ℕ) ≤ 3; omega
    · intro d hd; exact absurd hd (List.not_mem_nil d)
    · intro i h1 h2
      exfalso
      have hc : (generateEmbedding false p).calls = 0 := rfl
      omega
    · intro _ _ hk; exact absurd hk (by simp)
  | true =>
    refine ⟨?_, ?_, ?_, ?_⟩
    · exact genLoop_calls_le p maxRetries 1
    · intro d hd; exact genLoop_delays_fixed p maxRetries 1 d hd
    · intro i h1 h2; exact genLoop_retried_transient p maxRetries 1 i h1 h2
    · intro hf ht _; exact generateEmbedding_nontransient_immediate p hf ht

theorem claim_C3_retry_policy_witness :
    (generateEmbedding true pDns).calls ≤ 3 :=
  (claim_C3_retry_policy true pDns).1

/-- C3 is false as stated: `p429` answers every attempt with the non-2xx
rate-limit status 429, yet because its body text contains `fetch failed`
the thrown message `OpenAI API error: 429 - fetch failed` passes the
transient test, and `generateEmbedding` retries twice, making 3 attempts
instead of returning after the first. -/
theorem claim_C3_counterexample :
    (generateEmbedding true p429).calls = 3
    ∧ (generateEmbedding true p429).value = none :=
  ⟨rfl, rfl⟩

/-- C8 (amended): at creation time the embedding is computed, synchronously
within the operation, only when content is supplied (non-empty) AND the item
type is `document` or `file`; at update time it is recomputed whenever the
content field is present; in both cases a successful provider call stores
the returned vector (stamping `processed_at`), while a failed provider call
lets the write proceed without an embedding.  (The original claim — every
create/update with content stores an embedding — fails for other types,
e.g. `url`: see the counterexample.) -/
theorem claim_C8_embedding_on_write :
    (∀ (item : NewItemInput) (embedOf : String → Option (List ℝ))
        (c : String) (v : List ℝ), item.content = some c → c ≠ "" →
        (item.type = "document" ∨ item.type = "file") → embedOf c = some v →
        (createItemInsertData item embedOf).embedding = some v ∧
          (createItemInsertData item embedOf).processedAtSet = true)
    ∧ (∀ (item : NewItemInput) (embedOf : String → Option (List ℝ))
        (c : String), item.content = some c → embedOf c = none →
        (createItemInsertData item embedOf).embedding = none)
    ∧ (∀ (item : NewItemInput) (embedOf : String → Option (List ℝ)),
        item.content = none ∨ ¬(item.type = "document" ∨ item.type = "file") →
        (createItemInsertData item embedOf).embedding = none)
    ∧ (∀ (u : UpdateInput) (embedOf : String → Option (List ℝ))
        (c : String) (v : List ℝ), u.content = some c → embedOf c = some v →
        (updateItemUpdateData u embedOf).embedding = some v ∧
          (updateItemUpdateData u embedOf).processedAtSet = true)
    ∧ (∀ (u : UpdateInput) (embedOf : String → Option (List ℝ))
        (c : String), u.content = some c → embedOf c = none →
        (updateItemUpdateData u embedOf).embedding = none) := by
  refine ⟨?_, ?_, ?_, ?_, ?_⟩
  · intro item f c v hc hcne htype hf
    simp only [createItemInsertData, hc]
    rw [if_pos ⟨hcne, htype⟩, hf]
    exact ⟨rfl, rfl⟩
  · intro item f c hc hf
    simp only [createItemInsertData, hc]
    split
    · rw [hf]
    · rfl
  · intro item f h
    cases hc : item.content with
    | none => simp only [createItemInsertData, hc]
    | some c =>
      rcases h with h | h
      · rw [hc] at h; exact absurd h (by simp)
      · simp only [createItemInsertData, hc]
        rw [if_neg (fun hcond => h hcond.2)]
  · intro u f c v hc hf
    simp [updateItemUpdateData, hc, hf]
  · intro u f c hc hf
    simp only [updateItemUpdateData, hc, hf]

theorem claim_C8_embedding_on_write_witness :
    (createItemInsertData itemDoc embedOne).embedding = some [(1:ℝ)] :=
  (claim_C8_embedding_on_write.1 itemDoc embedOne "hello" [(1:ℝ)] rfl
    (by decide) (Or.inl rfl) rfl).1

/-- C8 is false as stated: a created item of type `url` carrying content
`"hello"` gets no embedding even though the provider would succeed — the
source computes embeddings at creation only for types `document` and
`file`. -/
theorem claim_C8_counterexample :
    (createItemInsertData itemUrl embedOne).embedding = none
    ∧ itemUrl.content = some "hello" ∧ embedOne "hello" = some [(1:ℝ)] :=
  ⟨rfl, rfl, rfl⟩

end Vezlo
